import Mathlib

/-!
Verification development for the pdf-rag client (Next.js front end).

The definitions below are a shallow embedding of the client code in
`client/app/components` (the chat shell `AppShell`, the chat component with
its SSE stream consumer `sendMessage` / `handleTranslate`, the PDF library
operations `handleFileChange` / `handleDeletePdf` / `handleMerge`, and the
session handlers `handleDeleteSession` / history loading).

JavaScript string primitives (`split`, `slice`, `trim`, `startsWith`) are
modelled structurally over the character data of Lean strings so that every
definition is executable by the kernel.  `JSON.parse` is an external runtime
capability; the stream consumer is parameterised over a parse function
`String → Option ParsedToken` returning the `type` / `data` fields of the
parsed payload when it is an object of that shape ( `none` models both a
parse exception and a payload without those fields).
-/

namespace PdfRag

/-- Message roles, from `types.ts` (`role: 'user' | 'assistant'`). -/
inductive Role
  | user
  | assistant
deriving DecidableEq, Repr

/-- A chat message, from `types.ts`. -/
structure Message where
  role : Role
  content : String
deriving DecidableEq, Repr

/-- A chat session, from `types.ts` (`createdAt` is a JS timestamp). -/
structure Session where
  id : String
  title : String
  messages : List Message
  createdAt : Nat
deriving DecidableEq, Repr

/-- A PDF entry of the client library, from `chat.tsx`
(`type PdfEntry = { name; displayName; objectUrl }`). -/
structure PdfEntry where
  name : String
  displayName : String
  objectUrl : String
deriving DecidableEq, Repr

/-! ### JS string primitives, modelled structurally -/

/-- `s.split('\n')` on the character level: splits into the (always
nonempty) list of segments between newline characters. -/
def splitNlChars : List Char → List (List Char)
  | [] => [[]]
  | c :: cs =>
    if c = '\n' then [] :: splitNlChars cs
    else
      match splitNlChars cs with
      | [] => [[c]]
      | l :: ls => (c :: l) :: ls

/-- `sseBuffer.split('\n')` from the stream loops. -/
def splitNl (s : String) : List String :=
  (splitNlChars s.data).map String.mk

/-- `line.slice(n)` (drop the first `n` characters). -/
def strDrop (s : String) (n : Nat) : String :=
  String.mk (s.data.drop n)

/-- `s.trim()`: strip leading and trailing whitespace. -/
def strTrim (s : String) : String :=
  String.mk ((((s.data.dropWhile Char.isWhitespace).reverse).dropWhile Char.isWhitespace).reverse)

/-- `line.startsWith(p)`. -/
def strStartsWith (s p : String) : Bool :=
  p.data.isPrefixOf s.data

/-! ### Generic string lemmas used throughout -/

theorem strAppend_data (a b : String) : (a ++ b).data = a.data ++ b.data := by
  cases a; cases b; rfl

theorem strAppend_assoc (a b c : String) : a ++ b ++ c = a ++ (b ++ c) := by
  cases a; cases b; cases c
  show String.mk _ = String.mk _
  simp [String.append, List.append_assoc]

theorem strAppend_empty (a : String) : a ++ "" = a := by
  cases a
  show String.mk _ = String.mk _
  simp [String.append]

theorem strEmpty_append (a : String) : "" ++ a = a := by
  cases a
  show String.mk _ = String.mk _
  simp [String.append]

/-! ### The SSE stream consumer (`sendMessage` / `handleTranslate` in `chat.tsx`)

Both functions contain the identical read loop

```
while (true) {
  const { done, value } = await reader.read();
  if (done) break;
  sseBuffer += decoder.decode(value, { stream: true });
  const lines = sseBuffer.split('\n');
  sseBuffer = lines.pop() ?? '';
  for (const line of lines) {
    if (!line.startsWith('data: ')) continue;
    const data = line.slice(6).trim();
    if (data === '[DONE]') break;
    try {
      const parsed = JSON.parse(data);
      if (parsed.type === 'token' && parsed.data) {
        fullAnswer += parsed.data;
        setMessages((prev) => ... last.content += parsed.data ...);
      }
    } catch { /- skip malformed -/ }
  }
}
```

A stream is modelled as the list of decoded text chunks delivered by the
successive `reader.read()` calls. -/

/-- The `type` and `data` fields of a successfully parsed payload object.
Produced by the external `JSON.parse` capability. -/
structure ParsedToken where
  type : String
  data : String
deriving DecidableEq, Repr

/-- The state mutated by the token loop: the `messages` React state
(the assistant message being streamed into is its last element) and the
local `fullAnswer` accumulator. -/
structure ChatState where
  messages : List Message
  fullAnswer : String
deriving DecidableEq, Repr

/-- `updated[updated.length - 1] = f(updated[updated.length - 1])` on a copy
of the array (the `setMessages` update). On an empty list nothing happens. -/
def updateLast (ms : List Message) (f : Message → Message) : List Message :=
  match ms with
  | [] => []
  | [m] => [f m]
  | m :: m2 :: rest => m :: updateLast (m2 :: rest) f

/-- The body run for one valid token event: `fullAnswer += parsed.data` and
append `parsed.data` to the content of the last message. -/
def pushToken (st : ChatState) (d : String) : ChatState :=
  { messages := updateLast st.messages (fun m => { m with content := m.content ++ d }),
    fullAnswer := st.fullAnswer ++ d }

/-- The `for (const line of lines)` loop over the complete lines of one read.
`break` on a `[DONE]` payload abandons only the lines of this read. -/
def processLinesSt (parse : String → Option ParsedToken) :
    List String → ChatState → ChatState
  | [], st => st
  | line :: rest, st =>
    if strStartsWith line "data: " then
      let data := strTrim (strDrop line 6)
      if data == "[DONE]" then st
      else
        match parse data with
        | some p =>
          if p.type == "token" && p.data != "" then
            processLinesSt parse rest (pushToken st p.data)
          else processLinesSt parse rest st
        | none => processLinesSt parse rest st
    else processLinesSt parse rest st

/-- The loop-carried state of the read loop: the `sseBuffer` plus the
chat state. -/
structure StreamLoop where
  buffer : String
  chat : ChatState
deriving DecidableEq, Repr

/-- One `reader.read()` iteration: append the decoded chunk to the buffer,
split on newlines, keep the trailing (possibly incomplete) line as the new
buffer and run the line loop on the complete lines. -/
def readChunk (parse : String → Option ParsedToken) (sl : StreamLoop) (chunk : String) :
    StreamLoop :=
  let parts := splitNl (sl.buffer ++ chunk)
  { buffer := parts.getLastD "",
    chat := processLinesSt parse parts.dropLast sl.chat }

/-- The whole read loop over the list of delivered chunks, starting from an
empty buffer. -/
def runStream (parse : String → Option ParsedToken) (st0 : ChatState)
    (chunks : List String) : ChatState :=
  (chunks.foldl (readChunk parse) { buffer := "", chat := st0 }).chat

/-- The complete lines the read loop extracts from the chunk sequence, in
arrival order (the trailing incomplete line is never processed). -/
def collectLines : String → List String → List String
  | _, [] => []
  | buf, c :: cs =>
    let parts := splitNl (buf ++ c)
    parts.dropLast ++ collectLines (parts.getLastD "") cs

/-- All complete lines of a stream. -/
def allLines (chunks : List String) : List String :=
  collectLines "" chunks

/-- Does this line carry the `[DONE]` terminator? -/
def isDoneLine (line : String) : Bool :=
  strStartsWith line "data: " && strTrim (strDrop line 6) == "[DONE]"

/-- The token payload a line contributes: `some d` exactly when the line
starts with `data: `, its payload is not `[DONE]`, parses as an object with
`type = "token"`, and has nonempty `data` field `d`. -/
def tokenOf (parse : String → Option ParsedToken) (line : String) : Option String :=
  if strStartsWith line "data: " then
    let data := strTrim (strDrop line 6)
    if data == "[DONE]" then none
    else
      match parse data with
      | some p => if p.type == "token" && p.data != "" then some p.data else none
      | none => none
  else none

/-- Apply a list of token payloads in order. -/
def applyTokens (st : ChatState) (ds : List String) : ChatState :=
  ds.foldl pushToken st

/-- Concatenation of a list of strings, in order. -/
def joinAll : List String → String
  | [] => ""
  | d :: ds => d ++ joinAll ds

/-! ### The exchange wrappers -/

/-- How one exchange's fetch/stream ends: `ok` means the read loop ran to
completion over the delivered chunks; `failAfter` means the request was
rejected (`!res.ok || !res.body`, with no chunks) or the read loop threw
after delivering the chunks, landing in the `catch` block. -/
inductive StreamOutcome
  | ok (chunks : List String)
  | failAfter (chunks : List String)
deriving DecidableEq, Repr

/-- The `try`/`catch` of one exchange: stream into the state; on failure
replace the last (assistant) message with the error text wholesale.
Returns the final chat state and the `hadError` flag. -/
def runExchange (parse : String → Option ParsedToken) (errText : String)
    (st0 : ChatState) (o : StreamOutcome) : ChatState × Bool :=
  match o with
  | StreamOutcome.ok chunks => (runStream parse st0 chunks, false)
  | StreamOutcome.failAfter chunks =>
    let st := runStream parse st0 chunks
    ({ messages := updateLast st.messages (fun _ => ⟨Role.assistant, errText⟩),
       fullAnswer := st.fullAnswer }, true)

/-- The error text `sendMessage` shows in the catch block. -/
def serverErrText : String := "Error: Could not reach the server."

/-- The error text `handleTranslate` shows in the catch block. -/
def translateErrText : String := "Error: Translation failed. Please try again."

/-- The messages state right after the user turn and the empty assistant
slot are appended, before streaming starts. -/
def initialExchangeState (prev : List Message) (userText : String) : ChatState :=
  { messages := prev ++ [⟨Role.user, userText⟩, ⟨Role.assistant, ""⟩],
    fullAnswer := "" }

/-- `sendMessage` in `chat.tsx`, as a function of the pre-exchange messages,
the trimmed user input and the stream outcome. -/
def sendMessage (parse : String → Option ParsedToken) (prev : List Message)
    (trimmed : String) (o : StreamOutcome) : ChatState × Bool :=
  runExchange parse serverErrText (initialExchangeState prev trimmed) o

/-- The user-turn text `handleTranslate` composes. -/
def translateUserText (filename lang : String) : String :=
  "Translate \"" ++ filename ++ "\" to " ++ lang

/-- `handleTranslate` in `chat.tsx`: identical stream loop, different user
turn and error text. -/
def handleTranslate (parse : String → Option ParsedToken) (prev : List Message)
    (filename lang : String) (o : StreamOutcome) : ChatState × Bool :=
  runExchange parse translateErrText
    (initialExchangeState prev (translateUserText filename lang)) o

/-- The `finally` block of `sendMessage`: the session is saved exactly when
`!hadError && fullAnswer.trim()`, and what is passed to `onSaveSession` is
the pre-exchange snapshot plus the user turn plus the full answer. -/
def savedExchange (parse : String → Option ParsedToken) (prev : List Message)
    (trimmed : String) (o : StreamOutcome) : Option (List Message) :=
  let r := sendMessage parse prev trimmed o
  if r.2 == false && strTrim r.1.fullAnswer != "" then
    some (prev ++ [⟨Role.user, trimmed⟩, ⟨Role.assistant, r.1.fullAnswer⟩])
  else none

/-- The `finally` block of `handleTranslate`, same shape
(`if (!hadError && fullText.trim())`). -/
def savedTranslate (parse : String → Option ParsedToken) (prev : List Message)
    (filename lang : String) (o : StreamOutcome) : Option (List Message) :=
  let r := handleTranslate parse prev filename lang o
  if r.2 == false && strTrim r.1.fullAnswer != "" then
    some (prev ++ [⟨Role.user, translateUserText filename lang⟩,
                   ⟨Role.assistant, r.1.fullAnswer⟩])
  else none

/-! ### Lemmas about the stream consumer -/

theorem applyTokens_cons (st : ChatState) (d : String) (ds : List String) :
    applyTokens st (d :: ds) = applyTokens (pushToken st d) ds := rfl

theorem applyTokens_append (st : ChatState) (xs ys : List String) :
    applyTokens st (xs ++ ys) = applyTokens (applyTokens st xs) ys := by
  simp [applyTokens, List.foldl_append]

/-- A line that is not the terminator is handled uniformly: it contributes
its `tokenOf` payload (if any) and the loop continues. -/
theorem processLinesSt_cons_not_done (parse : String → Option ParsedToken)
    (l : String) (rest : List String) (st : ChatState)
    (hl : isDoneLine l = false) :
    processLinesSt parse (l :: rest) st =
      processLinesSt parse rest
        (match tokenOf parse l with
         | some d => pushToken st d
         | none => st) := by
  by_cases hs : strStartsWith l "data: " = true
  · have hnd : (strTrim (strDrop l 6) == "[DONE]") = false := by
      unfold isDoneLine at hl
      rw [hs] at hl
      simpa using hl
    cases hp : parse (strTrim (strDrop l 6)) with
    | some p =>
      by_cases ht : (p.type == "token" && p.data != "") = true
      · simp [processLinesSt, tokenOf, hs, hnd, hp, ht]
      · simp [processLinesSt, tokenOf, hs, hnd, hp, ht]
    | none => simp [processLinesSt, tokenOf, hs, hnd, hp]
  · have hs' : strStartsWith l "data: " = false := by simpa using hs
    simp [processLinesSt, tokenOf, hs']

/-- Over terminator-free lines the loop just applies each line's token. -/
theorem processLinesSt_no_done (parse : String → Option ParsedToken)
    (ls : List String) :
    ∀ st : ChatState, (∀ l ∈ ls, isDoneLine l = false) →
      processLinesSt parse ls st = applyTokens st (ls.filterMap (tokenOf parse)) := by
  induction ls with
  | nil => intro st _; rfl
  | cons l rest ih =>
    intro st h
    have hrest : ∀ x ∈ rest, isDoneLine x = false :=
      fun x hx => h x (List.mem_cons_of_mem _ hx)
    rw [processLinesSt_cons_not_done parse l rest st (h l (List.mem_cons_self _ _))]
    cases htok : tokenOf parse l with
    | some d =>
      rw [List.filterMap_cons_some htok, applyTokens_cons, ← ih (pushToken st d) hrest]
    | none =>
      rw [List.filterMap_cons_none htok, ← ih st hrest]

/-- The loop stops at the first terminator line of a batch: everything after
it in that batch is abandoned. -/
theorem processLinesSt_stops (parse : String → Option ParsedToken)
    (xs : List String) (dl : String) (ys : List String) :
    ∀ st : ChatState, (∀ l ∈ xs, isDoneLine l = false) → isDoneLine dl = true →
      processLinesSt parse (xs ++ dl :: ys) st
        = applyTokens st (xs.filterMap (tokenOf parse)) := by
  induction xs with
  | nil =>
    intro st _ hd
    have hs : strStartsWith dl "data: " = true := by
      unfold isDoneLine at hd
      exact ((Bool.and_eq_true _ _).mp hd).1
    have hnd : (strTrim (strDrop dl 6) == "[DONE]") = true := by
      unfold isDoneLine at hd
      exact ((Bool.and_eq_true _ _).mp hd).2
    simp [processLinesSt, hs, hnd, applyTokens]
  | cons l rest ih =>
    intro st h hd
    have hrest : ∀ x ∈ rest, isDoneLine x = false :=
      fun x hx => h x (List.mem_cons_of_mem _ hx)
    rw [List.cons_append,
        processLinesSt_cons_not_done parse l _ st (h l (List.mem_cons_self _ _))]
    cases htok : tokenOf parse l with
    | some d =>
      rw [List.filterMap_cons_some htok, applyTokens_cons, ← ih (pushToken st d) hrest hd]
    | none =>
      rw [List.filterMap_cons_none htok, ← ih st hrest hd]

/-- If the remaining chunks contribute no complete line, the chat state is
untouched by the rest of the read loop. -/
theorem foldl_readChunk_no_lines (parse : String → Option ParsedToken)
    (cs : List String) :
    ∀ (b : String) (st : ChatState), collectLines b cs = [] →
      (cs.foldl (readChunk parse) ⟨b, st⟩).chat = st := by
  induction cs with
  | nil => intro b st _; rfl
  | cons c rest ih =>
    intro b st hcol
    unfold collectLines at hcol
    have h1 : (splitNl (b ++ c)).dropLast = [] := (List.append_eq_nil.mp hcol).1
    have h2 : collectLines ((splitNl (b ++ c)).getLastD "") rest = [] :=
      (List.append_eq_nil.mp hcol).2
    rw [List.foldl_cons]
    have hstep : readChunk parse ⟨b, st⟩ c
        = ⟨(splitNl (b ++ c)).getLastD "", st⟩ := by
      simp [readChunk, h1, processLinesSt]
    rw [hstep]
    exact ih _ st h2

/-- Core correctness of the read loop on a terminator-free stream: the chat
state receives exactly the tokens of the complete lines, in arrival order. -/
theorem foldl_readChunk_no_done (parse : String → Option ParsedToken)
    (chunks : List String) :
    ∀ (b : String) (st : ChatState),
      (∀ l ∈ collectLines b chunks, isDoneLine l = false) →
      (chunks.foldl (readChunk parse) ⟨b, st⟩).chat
        = applyTokens st ((collectLines b chunks).filterMap (tokenOf parse)) := by
  induction chunks with
  | nil => intro b st _; rfl
  | cons c cs ih =>
    intro b st h
    unfold collectLines at h ⊢
    rw [List.foldl_cons]
    have h1 : ∀ l ∈ (splitNl (b ++ c)).dropLast, isDoneLine l = false :=
      fun l hl => h l (List.mem_append.mpr (Or.inl hl))
    have h2 : ∀ l ∈ collectLines ((splitNl (b ++ c)).getLastD "") cs, isDoneLine l = false :=
      fun l hl => h l (List.mem_append.mpr (Or.inr hl))
    have hstep : readChunk parse ⟨b, st⟩ c
        = ⟨(splitNl (b ++ c)).getLastD "",
           applyTokens st (((splitNl (b ++ c)).dropLast).filterMap (tokenOf parse))⟩ := by
      simp [readChunk, processLinesSt_no_done parse _ st h1]
    rw [hstep, ih _ _ h2, List.filterMap_append, applyTokens_append]

/-- Core correctness of the read loop on a stream whose last complete line is
the first terminator: the chat state receives exactly the tokens of the lines
before the terminator, in arrival order. -/
theorem foldl_readChunk_done (parse : String → Option ParsedToken)
    (chunks : List String) :
    ∀ (b : String) (st : ChatState) (pre : List String) (dl : String),
      collectLines b chunks = pre ++ [dl] →
      (∀ l ∈ pre, isDoneLine l = false) → isDoneLine dl = true →
      (chunks.foldl (readChunk parse) ⟨b, st⟩).chat
        = applyTokens st (pre.filterMap (tokenOf parse)) := by
  induction chunks with
  | nil =>
    intro b st pre dl hcol _ _
    exact absurd hcol.symm (List.append_ne_nil_of_right_ne_nil pre (by simp))
  | cons c cs ih =>
    intro b st pre dl hcol hpre hd
    unfold collectLines at hcol
    rw [List.foldl_cons]
    rcases List.append_eq_append_iff.mp hcol with ⟨a, hpre_eq, hrest⟩ | ⟨c2, hlines, hd_eq⟩
    · -- the terminator comes from a later chunk
      have h1 : ∀ l ∈ (splitNl (b ++ c)).dropLast, isDoneLine l = false := by
        intro l hl
        exact hpre l (hpre_eq ▸ List.mem_append.mpr (Or.inl hl))
      have ha : ∀ l ∈ a, isDoneLine l = false := by
        intro l hl
        exact hpre l (hpre_eq ▸ List.mem_append.mpr (Or.inr hl))
      have hstep : readChunk parse ⟨b, st⟩ c
          = ⟨(splitNl (b ++ c)).getLastD "",
             applyTokens st (((splitNl (b ++ c)).dropLast).filterMap (tokenOf parse))⟩ := by
        simp [readChunk, processLinesSt_no_done parse _ st h1]
      rw [hstep, ih _ _ a dl hrest ha hd, hpre_eq, List.filterMap_append, applyTokens_append]
    · -- the terminator is among this chunk's complete lines
      cases c2 with
      | nil =>
        -- this chunk's lines are exactly `pre`; the rest contributes `[dl]`
        rw [List.append_nil] at hlines
        have h1 : ∀ l ∈ (splitNl (b ++ c)).dropLast, isDoneLine l = false :=
          fun l hl => hpre l (hlines ▸ hl)
        have hstep : readChunk parse ⟨b, st⟩ c
            = ⟨(splitNl (b ++ c)).getLastD "",
               applyTokens st (((splitNl (b ++ c)).dropLast).filterMap (tokenOf parse))⟩ := by
          simp [readChunk, processLinesSt_no_done parse _ st h1]
        rw [hstep, ih _ _ [] dl (by simpa using hd_eq.symm) (by simp) hd]
        rw [hlines]
        rfl
      | cons x xt =>
        have hx : x = dl ∧ xt ++ collectLines ((splitNl (b ++ c)).getLastD "") cs = [] := by
          have := hd_eq
          rw [List.cons_append] at this
          exact ⟨(List.cons.injEq _ _ _ _ ▸ this).1.symm, ((List.cons.injEq _ _ _ _ ▸ this).2).symm⟩
        have hxt : xt = [] := (List.append_eq_nil.mp hx.2).1
        have hrest0 : collectLines ((splitNl (b ++ c)).getLastD "") cs = [] :=
          (List.append_eq_nil.mp hx.2).2
        have hlines' : (splitNl (b ++ c)).dropLast = pre ++ dl :: [] := by
          rw [hlines, hx.1, hxt]
        have hstep : readChunk parse ⟨b, st⟩ c
            = ⟨(splitNl (b ++ c)).getLastD "",
               applyTokens st (pre.filterMap (tokenOf parse))⟩ := by
          simp only [readChunk]
          rw [hlines']
          rw [processLinesSt_stops parse pre dl [] st hpre hd]
        rw [hstep]
        exact foldl_readChunk_no_lines parse cs _ _ hrest0

/-! ### Shape of the messages state during an exchange -/

theorem updateLast_append_singleton (xs : List Message) (y : Message)
    (f : Message → Message) :
    updateLast (xs ++ [y]) f = xs ++ [f y] := by
  induction xs with
  | nil => rfl
  | cons x xt ih =>
    cases xt with
    | nil => rfl
    | cons b bt =>
      simp only [List.cons_append, updateLast, List.append_eq]
      simp only [List.cons_append] at ih
      rw [ih]

theorem pushToken_shape (base : List Message) (r : Role) (c0 fa d : String) :
    pushToken ⟨base ++ [⟨r, c0⟩], fa⟩ d = ⟨base ++ [⟨r, c0 ++ d⟩], fa ++ d⟩ := by
  simp [pushToken, updateLast_append_singleton]

theorem applyTokens_shape (ds : List String) :
    ∀ (base : List Message) (r : Role) (c0 fa : String),
      applyTokens ⟨base ++ [⟨r, c0⟩], fa⟩ ds
        = ⟨base ++ [⟨r, c0 ++ joinAll ds⟩], fa ++ joinAll ds⟩ := by
  induction ds with
  | nil => intro base r c0 fa; simp [applyTokens, joinAll, strAppend_empty]
  | cons d ds ih =>
    intro base r c0 fa
    rw [applyTokens_cons, pushToken_shape, ih]
    show ChatState.mk _ _ = ChatState.mk _ _
    rw [joinAll, strAppend_assoc, strAppend_assoc]

/-- The line loop only ever appends to the content of the last message, and
appends the same text to `fullAnswer`. -/
theorem processLinesSt_shape (parse : String → Option ParsedToken)
    (ls : List String) :
    ∀ (base : List Message) (r : Role) (c0 fa : String),
      ∃ x, processLinesSt parse ls ⟨base ++ [⟨r, c0⟩], fa⟩
        = ⟨base ++ [⟨r, c0 ++ x⟩], fa ++ x⟩ := by
  induction ls with
  | nil =>
    intro base r c0 fa
    exact ⟨"", by simp [processLinesSt, strAppend_empty]⟩
  | cons l rest ih =>
    intro base r c0 fa
    by_cases hd : isDoneLine l = true
    · refine ⟨"", ?_⟩
      have hstop := processLinesSt_stops parse [] l rest ⟨base ++ [⟨r, c0⟩], fa⟩
        (by simp) hd
      simpa [applyTokens, strAppend_empty] using hstop
    · have hd' : isDoneLine l = false := by simpa using hd
      rw [processLinesSt_cons_not_done parse l rest _ hd']
      cases htok : tokenOf parse l with
      | some d =>
        dsimp only
        rw [pushToken_shape]
        obtain ⟨x, hx⟩ := ih base r (c0 ++ d) (fa ++ d)
        refine ⟨d ++ x, ?_⟩
        rw [hx]
        show ChatState.mk _ _ = ChatState.mk _ _
        rw [strAppend_assoc, strAppend_assoc]
      | none => exact ih base r c0 fa

/-- The read loop only ever appends to the content of the last message, and
appends the same text to `fullAnswer`. -/
theorem foldl_readChunk_shape (parse : String → Option ParsedToken)
    (chunks : List String) :
    ∀ (b : String) (base : List Message) (r : Role) (c0 fa : String),
      ∃ x, (chunks.foldl (readChunk parse) ⟨b, ⟨base ++ [⟨r, c0⟩], fa⟩⟩).chat
        = ⟨base ++ [⟨r, c0 ++ x⟩], fa ++ x⟩ := by
  induction chunks with
  | nil =>
    intro b base r c0 fa
    exact ⟨"", by simp [strAppend_empty]⟩
  | cons c cs ih =>
    intro b base r c0 fa
    rw [List.foldl_cons]
    obtain ⟨x1, hx1⟩ := processLinesSt_shape parse (splitNl (b ++ c)).dropLast base r c0 fa
    have hstep : readChunk parse ⟨b, ⟨base ++ [⟨r, c0⟩], fa⟩⟩ c
        = ⟨(splitNl (b ++ c)).getLastD "", ⟨base ++ [⟨r, c0 ++ x1⟩], fa ++ x1⟩⟩ := by
      simp [readChunk, hx1]
    rw [hstep]
    obtain ⟨x2, hx2⟩ := ih _ base r (c0 ++ x1) (fa ++ x1)
    refine ⟨x1 ++ x2, ?_⟩
    rw [hx2]
    show ChatState.mk _ _ = ChatState.mk _ _
    rw [strAppend_assoc, strAppend_assoc]

/-- After streaming, the state is the pre-exchange messages, the user turn,
and an assistant message whose content coincides with `fullAnswer`. -/
theorem runStream_exchange_shape (parse : String → Option ParsedToken)
    (prev : List Message) (t : String) (chunks : List String) :
    ∃ x, runStream parse (initialExchangeState prev t) chunks
      = ⟨prev ++ [⟨Role.user, t⟩, ⟨Role.assistant, x⟩], x⟩ := by
  obtain ⟨x, hx⟩ := foldl_readChunk_shape parse chunks ""
    (prev ++ [⟨Role.user, t⟩]) Role.assistant "" ""
  refine ⟨x, ?_⟩
  have hmsg : prev ++ [⟨Role.user, t⟩, ⟨Role.assistant, ""⟩]
      = (prev ++ [⟨Role.user, t⟩]) ++ [(⟨Role.assistant, ""⟩ : Message)] := by simp
  unfold runStream initialExchangeState
  rw [hmsg, hx]
  show ChatState.mk _ _ = ChatState.mk _ _
  rw [strEmpty_append]
  simp

/-- Shared corollary: on a stream whose complete lines are terminator-free
lines `pre` followed by the `[DONE]` line, the exchange ends with the
assistant message and `fullAnswer` both equal to the concatenation of the
token payloads of `pre`, in arrival order. -/
theorem runStream_done_exchange (parse : String → Option ParsedToken)
    (prev : List Message) (t : String) (chunks : List String)
    (pre : List String) (dl : String)
    (hcol : allLines chunks = pre ++ [dl])
    (hdl : isDoneLine dl = true)
    (hpre : ∀ l ∈ pre, isDoneLine l = false) :
    runStream parse (initialExchangeState prev t) chunks
      = ⟨prev ++ [⟨Role.user, t⟩,
                  ⟨Role.assistant, joinAll (pre.filterMap (tokenOf parse))⟩],
         joinAll (pre.filterMap (tokenOf parse))⟩ := by
  simp only [allLines] at hcol
  have hmsg : initialExchangeState prev t
      = ⟨(prev ++ [⟨Role.user, t⟩]) ++ [(⟨Role.assistant, ""⟩ : Message)], ""⟩ := by
    simp [initialExchangeState]
  unfold runStream
  rw [hmsg, foldl_readChunk_done parse chunks "" _ pre dl hcol hpre hdl,
      applyTokens_shape]
  show ChatState.mk _ _ = ChatState.mk _ _
  rw [strEmpty_append]
  simp

/-- A concrete stand-in for the external `JSON.parse` capability, used by
witnesses: it recognises two fixed payloads as token events. -/
def parseW : String → Option ParsedToken := fun s =>
  if s == "T1" then some ⟨"token", "Hello "⟩
  else if s == "T2" then some ⟨"token", "world"⟩
  else none

/-- Claim C1: for every chat exchange whose response is a stream of
newline-delimited lines terminated by a `data: [DONE]` line (the documented
protocol), the client appends, in arrival order, exactly the `data` of every
`data: ` line whose payload parses as JSON with type `token` and non-empty
data; processing stops at the `[DONE]` line, and lines not starting with
`data: ` contribute nothing (their `tokenOf` is `none`). -/
theorem sendMessage_stream_consumer (parse : String → Option ParsedToken)
    (prev : List Message) (t : String) (chunks : List String)
    (pre : List String) (dl : String)
    (hcol : allLines chunks = pre ++ [dl])
    (hdl : isDoneLine dl = true)
    (hpre : ∀ l ∈ pre, isDoneLine l = false) :
    (sendMessage parse prev t (StreamOutcome.ok chunks)).1.messages
      = prev ++ [⟨Role.user, t⟩,
                 ⟨Role.assistant, joinAll (pre.filterMap (tokenOf parse))⟩]
    ∧ (sendMessage parse prev t (StreamOutcome.ok chunks)).1.fullAnswer
      = joinAll (pre.filterMap (tokenOf parse))
    ∧ (∀ l ∈ pre, strStartsWith l "data: " = false → tokenOf parse l = none) := by
  have hrun := runStream_done_exchange parse prev t chunks pre dl hcol hdl hpre
  refine ⟨?_, ?_, ?_⟩
  · simp [sendMessage, runExchange, hrun]
  · simp [sendMessage, runExchange, hrun]
  · intro l _ hns
    simp [tokenOf, hns]

/-- Witness for C1: a two-chunk stream (one event split across the chunk
boundary, one non-`data: ` line) produces exactly the concatenated tokens. -/
theorem sendMessage_stream_consumer_witness :
    (sendMessage parseW [] "hi"
        (StreamOutcome.ok ["data: T1\nda", "ta: T2\nnoise\ndata: [DONE]\n"])).1.messages
      = [⟨Role.user, "hi"⟩, ⟨Role.assistant, "Hello world"⟩] := by
  have h := sendMessage_stream_consumer parseW [] "hi"
    ["data: T1\nda", "ta: T2\nnoise\ndata: [DONE]\n"]
    ["data: T1", "data: T2", "noise"] "data: [DONE]"
    (by decide) (by decide) (by decide)
  exact h.1.trans (by decide)

/-- Claim C2: for every stream (chat or translate), a `data: ` line whose
payload is neither `[DONE]` nor parses as a token is skipped: the stream is
not aborted, and the tokens of the valid lines before and after it are all
accumulated. -/
theorem stream_skips_malformed (parse : String → Option ParsedToken)
    (prev : List Message) (t f lg : String) (chunks : List String)
    (pre post : List String) (m dl : String)
    (hcol : allLines chunks = pre ++ (m :: post) ++ [dl])
    (hm1 : strStartsWith m "data: " = true)
    (hm2 : (strTrim (strDrop m 6) == "[DONE]") = false)
    (hm3 : parse (strTrim (strDrop m 6)) = none)
    (hdl : isDoneLine dl = true)
    (hpre : ∀ l ∈ pre, isDoneLine l = false)
    (hpost : ∀ l ∈ post, isDoneLine l = false) :
    (sendMessage parse prev t (StreamOutcome.ok chunks)).1.fullAnswer
      = joinAll ((pre ++ post).filterMap (tokenOf parse))
    ∧ (handleTranslate parse prev f lg (StreamOutcome.ok chunks)).1.fullAnswer
      = joinAll ((pre ++ post).filterMap (tokenOf parse)) := by
  have hmdone : isDoneLine m = false := by
    unfold isDoneLine
    rw [hm1, hm2]
    rfl
  have hall : ∀ l ∈ pre ++ (m :: post), isDoneLine l = false := by
    intro l hl
    rcases List.mem_append.mp hl with h | h
    · exact hpre l h
    · rcases List.mem_cons.mp h with h | h
      · rw [h]; exact hmdone
      · exact hpost l h
  have htokm : tokenOf parse m = none := by
    simp [tokenOf, hm1, hm2, hm3]
  have hfilter : (pre ++ (m :: post)).filterMap (tokenOf parse)
      = (pre ++ post).filterMap (tokenOf parse) := by
    rw [List.filterMap_append, List.filterMap_cons_none htokm, ← List.filterMap_append]
  constructor
  · have hrun := runStream_done_exchange parse prev t chunks (pre ++ (m :: post)) dl
      hcol hdl hall
    simp [sendMessage, runExchange, hrun, hfilter]
  · have hrun := runStream_done_exchange parse prev (translateUserText f lg) chunks
      (pre ++ (m :: post)) dl hcol hdl hall
    simp [handleTranslate, runExchange, hrun, hfilter]

/-- Witness for C2: a malformed `data: ` line between two valid token lines
is skipped and both surrounding tokens are kept. -/
theorem stream_skips_malformed_witness :
    (sendMessage parseW [] "hi"
        (StreamOutcome.ok ["data: T1\ndata: ???\nda", "ta: T2\ndata: [DONE]\n"])).1.fullAnswer
      = "Hello world" := by
  have h := stream_skips_malformed parseW [] "hi" "doc.pdf" "French"
    ["data: T1\ndata: ???\nda", "ta: T2\ndata: [DONE]\n"]
    ["data: T1"] ["data: T2"] "data: ???" "data: [DONE]"
    (by decide) (by decide) (by decide) (by decide) (by decide) (by decide) (by decide)
  exact h.1.trans (by decide)

/-- Claim C5: when the generation stream fails (request rejected, missing
body, or the read loop throws after any number of chunks), the exchange ends
with the assistant slot holding the visible error text — not a silently
truncated partial answer — the earlier messages unchanged and the error flag
set; likewise for translate with its error text. -/
theorem sendMessage_failure_confined (parse : String → Option ParsedToken)
    (prev : List Message) (t f lg : String) (chunks : List String) :
    (sendMessage parse prev t (StreamOutcome.failAfter chunks)).1.messages
      = prev ++ [⟨Role.user, t⟩, ⟨Role.assistant, serverErrText⟩]
    ∧ (sendMessage parse prev t (StreamOutcome.failAfter chunks)).2 = true
    ∧ (handleTranslate parse prev f lg (StreamOutcome.failAfter chunks)).1.messages
      = prev ++ [⟨Role.user, translateUserText f lg⟩, ⟨Role.assistant, translateErrText⟩]
    ∧ (handleTranslate parse prev f lg (StreamOutcome.failAfter chunks)).2 = true := by
  obtain ⟨x, hx⟩ := runStream_exchange_shape parse prev t chunks
  obtain ⟨y, hy⟩ := runStream_exchange_shape parse prev (translateUserText f lg) chunks
  have hsplit : ∀ (u : Message) (c : String),
      prev ++ [u, ⟨Role.assistant, c⟩] = (prev ++ [u]) ++ [(⟨Role.assistant, c⟩ : Message)] := by
    intro u c
    simp
  refine ⟨?_, rfl, ?_, rfl⟩
  · show (updateLast (runStream parse (initialExchangeState prev t) chunks).messages _) = _
    rw [hx]
    dsimp only
    rw [hsplit, updateLast_append_singleton]
    simp
  · show (updateLast (runStream parse
      (initialExchangeState prev (translateUserText f lg)) chunks).messages _) = _
    rw [hy]
    dsimp only
    rw [hsplit, updateLast_append_singleton]
    simp

/-- Claim C6: a session is persisted exactly when the exchange had no error
and produced an answer that is non-empty after trimming; what is persisted is
precisely the pre-exchange messages, the user turn, and the complete answer
(which is also exactly what the UI displays); on an errored or empty
exchange nothing is persisted. -/
theorem exchange_persist_iff_complete (parse : String → Option ParsedToken)
    (prev : List Message) (t f lg : String) (chunks : List String) :
    savedExchange parse prev t (StreamOutcome.failAfter chunks) = none
    ∧ savedTranslate parse prev f lg (StreamOutcome.failAfter chunks) = none
    ∧ (∀ ms, savedExchange parse prev t (StreamOutcome.ok chunks) = some ms →
        strTrim (sendMessage parse prev t (StreamOutcome.ok chunks)).1.fullAnswer ≠ ""
        ∧ ms = (sendMessage parse prev t (StreamOutcome.ok chunks)).1.messages
        ∧ ms = prev ++ [⟨Role.user, t⟩,
            ⟨Role.assistant, (sendMessage parse prev t (StreamOutcome.ok chunks)).1.fullAnswer⟩])
    ∧ (strTrim (sendMessage parse prev t (StreamOutcome.ok chunks)).1.fullAnswer = "" →
        savedExchange parse prev t (StreamOutcome.ok chunks) = none)
    ∧ (∀ ms, savedTranslate parse prev f lg (StreamOutcome.ok chunks) = some ms →
        strTrim (handleTranslate parse prev f lg (StreamOutcome.ok chunks)).1.fullAnswer ≠ ""
        ∧ ms = prev ++ [⟨Role.user, translateUserText f lg⟩,
            ⟨Role.assistant,
             (handleTranslate parse prev f lg (StreamOutcome.ok chunks)).1.fullAnswer⟩]) := by
  obtain ⟨x, hx⟩ := runStream_exchange_shape parse prev t chunks
  obtain ⟨y, hy⟩ := runStream_exchange_shape parse prev (translateUserText f lg) chunks
  have hfa : (sendMessage parse prev t (StreamOutcome.ok chunks)).1.fullAnswer = x := by
    simp [sendMessage, runExchange, hx]
  have hmsgs : (sendMessage parse prev t (StreamOutcome.ok chunks)).1.messages
      = prev ++ [⟨Role.user, t⟩, ⟨Role.assistant, x⟩] := by
    simp [sendMessage, runExchange, hx]
  have hsaved : savedExchange parse prev t (StreamOutcome.ok chunks)
      = if strTrim x != "" then
          some (prev ++ [⟨Role.user, t⟩, ⟨Role.assistant, x⟩])
        else none := by
    simp [savedExchange, sendMessage, runExchange, hx]
  have hfat : (handleTranslate parse prev f lg (StreamOutcome.ok chunks)).1.fullAnswer = y := by
    simp [handleTranslate, runExchange, hy]
  have hsavedt : savedTranslate parse prev f lg (StreamOutcome.ok chunks)
      = if strTrim y != "" then
          some (prev ++ [⟨Role.user, translateUserText f lg⟩, ⟨Role.assistant, y⟩])
        else none := by
    simp [savedTranslate, handleTranslate, runExchange, hy]
  refine ⟨?_, ?_, ?_, ?_, ?_⟩
  · simp [savedExchange, sendMessage, runExchange]
  · simp [savedTranslate, handleTranslate, runExchange]
  · intro ms hms
    rw [hsaved] at hms
    by_cases hc : (strTrim x != "") = true
    · rw [if_pos hc] at hms
      have hms' := Option.some.inj hms
      refine ⟨?_, ?_, ?_⟩
      · rw [hfa]
        simpa using hc
      · rw [hmsgs, hms']
      · rw [hfa, hms']
    · rw [if_neg hc] at hms
      exact absurd hms (by simp)
  · intro hempty
    rw [hfa] at hempty
    rw [hsaved, if_neg]
    simp [hempty]
  · intro ms hms
    rw [hsavedt] at hms
    by_cases hc : (strTrim y != "") = true
    · rw [if_pos hc] at hms
      have hms' := Option.some.inj hms
      refine ⟨?_, ?_⟩
      · rw [hfat]
        simpa using hc
      · rw [hfat, hms']
    · rw [if_neg hc] at hms
      exact absurd hms (by simp)

/-- Witness for C6: a completed exchange with the non-empty answer
`"Hello "` is persisted, and what is persisted equals the displayed state. -/
theorem exchange_persist_iff_complete_witness :
    strTrim (sendMessage parseW [] "hi"
        (StreamOutcome.ok ["data: T1\ndata: [DONE]\n"])).1.fullAnswer ≠ ""
    ∧ [⟨Role.user, "hi"⟩, (⟨Role.assistant, "Hello "⟩ : Message)]
        = (sendMessage parseW [] "hi"
            (StreamOutcome.ok ["data: T1\ndata: [DONE]\n"])).1.messages := by
  have h := (exchange_persist_iff_complete parseW [] "hi" "doc.pdf" "French"
      ["data: T1\ndata: [DONE]\n"]).2.2.1
    [⟨Role.user, "hi"⟩, ⟨Role.assistant, "Hello "⟩] (by decide)
  exact ⟨h.1, h.2.1⟩

/-! ### The upload / merge status polling (`handleFileChange`, `handleMerge`)

Both poll `GET /upload/status` every 2 seconds:

```
let pollCount = 0;
const MAX_POLLS = 30; // 30 × 2s = 60s timeout
const pollInterval = setInterval(async () => {
  pollCount += 1;
  if (pollCount >= MAX_POLLS) {
    // Timed out — assume done so the UI doesn't lock up
    setUploadStatus('success'); clearInterval(pollInterval); ...; return;
  }
  try {
    ... if (statusData.status === 'done') { setUploadStatus('success'); clearInterval(...); }
    else if (statusData.status === 'error') { setUploadStatus('error'); clearInterval(...); }
  } catch { /- non-critical — keep polling -/ }
}, 2000);
```

(`handleMerge` has the identical loop with a local `count`.)  One tick is
modelled by the upstream reply it observes: `done`, `error`, or `pending`
(any other status, a non-ok response, or a thrown fetch — all of which keep
polling). -/

/-- What one status poll observes from the upstream. -/
inductive PollReply
  | done
  | error
  | pending
deriving DecidableEq, Repr

/-- The `uploadStatus` React state values, from `chat.tsx`. -/
inductive UploadStatus
  | idle
  | uploading
  | embedding
  | success
  | error
deriving DecidableEq, Repr

/-- `MAX_POLLS` from `handleFileChange` (the literal `30` in `handleMerge`). -/
def MAX_POLLS : Nat := 30

/-- The polling loop, given the infinite schedule of upstream replies
(`reply n` is what the `n`-th tick would observe) and the current
`pollCount`; returns the `uploadStatus` set when the interval is cleared.
The loop starts at `pollCount = 0`. -/
def pollLoop (reply : Nat → PollReply) (pollCount : Nat) : UploadStatus :=
  let count := pollCount + 1
  if MAX_POLLS ≤ count then UploadStatus.success
  else
    match reply count with
    | PollReply.done => UploadStatus.success
    | PollReply.error => UploadStatus.error
    | PollReply.pending => pollLoop reply count
termination_by MAX_POLLS - pollCount
decreasing_by
  simp only [MAX_POLLS] at *
  omega

/-- Counterexample to C3: if the upstream never reports `done` or `error`,
the poll budget is exhausted and the observed status becomes `success`
("assume done"), not `error` as the claim states. -/
theorem pollLoop_timeout_not_error :
    pollLoop (fun _ => PollReply.pending) 0 = UploadStatus.success
    ∧ pollLoop (fun _ => PollReply.pending) 0 ≠ UploadStatus.error := by
  have h : pollLoop (fun _ => PollReply.pending) 0 = UploadStatus.success := by
    simp [pollLoop, MAX_POLLS]
  exact ⟨h, by rw [h]; simp⟩

/-- Claim C3 (amended): the status polling is bounded — after at most
`MAX_POLLS` ticks the interval is cleared with a terminal status, `success`
(also on budget exhaustion, which optimistically assumes done) or `error`;
the observed status is never left at `embedding` forever. -/
theorem pollLoop_terminal (reply : Nat → PollReply) (n : Nat) :
    (pollLoop reply n = UploadStatus.success ∨ pollLoop reply n = UploadStatus.error)
    ∧ pollLoop reply n ≠ UploadStatus.embedding := by
  have key : ∀ (k m : Nat), MAX_POLLS ≤ m + 1 + k →
      pollLoop reply m = UploadStatus.success ∨ pollLoop reply m = UploadStatus.error := by
    intro k
    induction k with
    | zero =>
      intro m hm
      rw [pollLoop]
      simp only [Nat.add_zero] at hm
      rw [if_pos hm]
      exact Or.inl rfl
    | succ k ih =>
      intro m hm
      rw [pollLoop]
      by_cases hc : MAX_POLLS ≤ m + 1
      · rw [if_pos hc]
        exact Or.inl rfl
      · rw [if_neg hc]
        cases reply (m + 1) with
        | done => exact Or.inl rfl
        | error => exact Or.inr rfl
        | pending => exact ih (m + 1) (by omega)
  have h := key MAX_POLLS n (by omega)
  refine ⟨h, ?_⟩
  rcases h with h | h <;> rw [h] <;> simp

/-! ### The PDF library operations (`chat.tsx`, `file-upload.tsx`) -/

/-- The insertion both completion paths of `handleFileChange` perform
(on `status === 'done'` and on poll-budget exhaustion):

```
setPdfLibrary((prev) => {
  const filtered = prev.filter((p) => p.name !== serverFilename);
  return [...filtered, { name: serverFilename, displayName: ..., objectUrl: ... }];
});
```

`entry` is the appended record; its `name` is the `serverFilename` used for
the filter. -/
def insertPdf (pdfLibrary : List PdfEntry) (entry : PdfEntry) : List PdfEntry :=
  pdfLibrary.filter (fun p => p.name != entry.name) ++ [entry]

/-- `handleDeletePdf` in `chat.tsx`:
`setPdfLibrary((prev) => prev.filter((p) => p.name !== name))`.
The server `DELETE` is fire-and-forget (errors caught and ignored), so the
library update is unconditional and total. -/
def handleDeletePdf (pdfLibrary : List PdfEntry) (nm : String) : List PdfEntry :=
  pdfLibrary.filter (fun p => p.name != nm)

/-- The accompanying `setMergeSelected((prev) => prev.filter((n) => n !== name))`
of `handleDeletePdf`. -/
def handleDeletePdfSelected (mergeSelected : List String) (nm : String) : List String :=
  mergeSelected.filter (fun n => n != nm)

/-- The merge request body `handleMerge` posts to `POST /pdf/merge`. -/
structure MergeRequest where
  filenames : List String
  output_name : String
deriving DecidableEq, Repr

/-- The guard and request construction of `handleMerge` in `chat.tsx`:

```
if (mergeSelected.length < 2 || mergeLoading) return;
const outName = mergeName.trim() || `merged_${Date.now()}`;
... fetch(..., body: JSON.stringify({ filenames: mergeSelected, output_name: outName }))
```

Returns the request issued, or `none` when the guard rejects the call (so no
request enters the pipeline). `now` is `Date.now()`. -/
def handleMergeRequest (mergeSelected : List String) (mergeLoading : Bool)
    (mergeName : String) (now : Nat) : Option MergeRequest :=
  if mergeSelected.length < 2 ∨ mergeLoading = true then none
  else some { filenames := mergeSelected,
              output_name :=
                if strTrim mergeName == "" then "merged_" ++ toString now
                else strTrim mergeName }

/-- `handleMergeClick` in `file-upload.tsx` (`PDFLibraryPanel`): the same
guard, forwarding `(mergeSelected, outName)` to `onMerge`. -/
def handleMergeClick (mergeSelected : List String) (mergeLoading : Bool)
    (mergeName : String) (now : Nat) : Option (List String × String) :=
  if mergeSelected.length < 2 ∨ mergeLoading = true then none
  else some (mergeSelected,
    if strTrim mergeName == "" then "merged_" ++ toString now else strTrim mergeName)

/-- The panel state `handleMerge` mutates on a successful merge response. -/
structure PdfPanelState where
  pdfLibrary : List PdfEntry
  mergeSelected : List String
  mergeName : String
deriving DecidableEq, Repr

/-- The server download URL given to a merged PDF
(`http://localhost:8000/pdf/download/` + `encodeURIComponent(serverName)`;
the URI encoder is an external runtime capability `enc`). -/
def pdfDownloadUrl (enc : String → String) (serverName : String) : String :=
  "http://localhost:8000/pdf/download/" ++ enc serverName

/-- The state update of `handleMerge` once the server replies with the merged
file's name:

```
setPdfLibrary((prev) => [
  ...prev.filter((p) => p.name !== serverName),
  { name: serverName, displayName: serverName, objectUrl },
]);
setMergeSelected([]);
setMergeName('');
``` -/
def handleMergeSuccess (enc : String → String) (st : PdfPanelState)
    (serverName : String) : PdfPanelState :=
  { pdfLibrary := st.pdfLibrary.filter (fun p => p.name != serverName)
      ++ [{ name := serverName, displayName := serverName,
            objectUrl := pdfDownloadUrl enc serverName }],
    mergeSelected := [],
    mergeName := "" }

/-- The server-side names of the library entries. -/
def pdfNames (pdfLibrary : List PdfEntry) : List String :=
  pdfLibrary.map PdfEntry.name

/-- Claim C4: merging with fewer than 2 selected documents is rejected
before any request is issued (in both merge UIs), and an issued merge
request always carries the selected ids, at least 2 of them. -/
theorem merge_requires_two (sel : List String) (ml : Bool) (nm : String) (now : Nat) :
    (sel.length < 2 →
      handleMergeRequest sel ml nm now = none ∧ handleMergeClick sel ml nm now = none)
    ∧ (∀ r, handleMergeRequest sel ml nm now = some r →
        2 ≤ r.filenames.length ∧ r.filenames = sel)
    ∧ (∀ fs outName, handleMergeClick sel ml nm now = some (fs, outName) →
        2 ≤ fs.length ∧ fs = sel) := by
  refine ⟨?_, ?_, ?_⟩
  · intro h
    constructor <;> simp [handleMergeRequest, handleMergeClick, h]
  · intro r hr
    by_cases hc : sel.length < 2 ∨ ml = true
    · simp [handleMergeRequest, hc] at hr
    · simp only [handleMergeRequest, if_neg hc] at hr
      have hsel : r.filenames = sel := by
        have h2 := Option.some.inj hr
        rw [← h2]
      refine ⟨?_, hsel⟩
      rw [hsel]
      push_neg at hc
      omega
  · intro fs outName hfs
    by_cases hc : sel.length < 2 ∨ ml = true
    · simp [handleMergeClick, hc] at hfs
    · simp only [handleMergeClick, if_neg hc] at hfs
      have hsel : fs = sel := by
        have := congrArg Prod.fst (Option.some.inj hfs)
        exact this.symm
      refine ⟨?_, hsel⟩
      rw [hsel]
      push_neg at hc
      omega

/-- Witness for C4: one selected PDF is rejected; two are forwarded. -/
theorem merge_requires_two_witness :
    handleMergeRequest ["a.pdf"] false "out" 7 = none
    ∧ handleMergeRequest ["a.pdf", "b.pdf"] false "out" 7
        = some { filenames := ["a.pdf", "b.pdf"], output_name := "out" } := by
  refine ⟨((merge_requires_two ["a.pdf"] false "out" 7).1 (by decide)).1, by decide⟩

/-- Claim C7: deleting a PDF by name is idempotent on the library: deleting
an absent name is not an error and leaves the library unchanged, and
deleting twice equals deleting once. -/
theorem handleDeletePdf_idempotent (lib : List PdfEntry) (nm : String) :
    ((∀ p ∈ lib, p.name ≠ nm) → handleDeletePdf lib nm = lib)
    ∧ handleDeletePdf (handleDeletePdf lib nm) nm = handleDeletePdf lib nm := by
  constructor
  · intro h
    apply List.filter_eq_self.mpr
    intro p hp
    simpa using h p hp
  · simp [handleDeletePdf, List.filter_filter]

/-- Witness for C7: deleting a name absent from a concrete library leaves it
unchanged. -/
theorem handleDeletePdf_idempotent_witness :
    handleDeletePdf [⟨"a.pdf", "A", "u"⟩] "b.pdf" = [⟨"a.pdf", "A", "u"⟩] :=
  (handleDeletePdf_idempotent [⟨"a.pdf", "A", "u"⟩] "b.pdf").1 (by decide)

/-- Counterexample to C8: when the merged output's server name collides with
a source's name, the source entry is removed from the library by the merge
(replaced by the merged entry), so "merge removes none of its constituents"
fails as stated. -/
theorem handleMergeSuccess_removes_colliding_source :
    (⟨"a.pdf", "A", "blob:a"⟩ : PdfEntry) ∈
      (⟨[⟨"a.pdf", "A", "blob:a"⟩, ⟨"b.pdf", "B", "blob:b"⟩],
        ["a.pdf", "b.pdf"], ""⟩ : PdfPanelState).pdfLibrary
    ∧ (⟨"a.pdf", "A", "blob:a"⟩ : PdfEntry) ∉
      (handleMergeSuccess (fun s => s)
        ⟨[⟨"a.pdf", "A", "blob:a"⟩, ⟨"b.pdf", "B", "blob:b"⟩],
         ["a.pdf", "b.pdf"], ""⟩ "a.pdf").pdfLibrary := by
  decide

/-- Claim C8 (amended): a successful merge keeps every library entry whose
name differs from the merged output's server name (in particular all source
documents not named like the output), adds the merged entry, and clears only
the merge selection. -/
theorem handleMergeSuccess_preserves_sources (enc : String → String)
    (st : PdfPanelState) (serverName : String) :
    (∀ p ∈ st.pdfLibrary, p.name ≠ serverName →
        p ∈ (handleMergeSuccess enc st serverName).pdfLibrary)
    ∧ (⟨serverName, serverName, pdfDownloadUrl enc serverName⟩ : PdfEntry)
        ∈ (handleMergeSuccess enc st serverName).pdfLibrary
    ∧ (handleMergeSuccess enc st serverName).mergeSelected = []
    ∧ (handleMergeSuccess enc st serverName).mergeName = "" := by
  refine ⟨?_, ?_, rfl, rfl⟩
  · intro p hp hne
    simp only [handleMergeSuccess, List.mem_append]
    left
    rw [List.mem_filter]
    exact ⟨hp, by simpa using hne⟩
  · simp [handleMergeSuccess]

/-- Witness for C8 (amended): with a fresh output name, a concrete source
entry survives the merge. -/
theorem handleMergeSuccess_preserves_sources_witness :
    (⟨"a.pdf", "A", "blob:a"⟩ : PdfEntry) ∈
      (handleMergeSuccess (fun s => s)
        ⟨[⟨"a.pdf", "A", "blob:a"⟩], ["a.pdf", "b.pdf"], ""⟩ "merged.pdf").pdfLibrary :=
  (handleMergeSuccess_preserves_sources (fun s => s)
    ⟨[⟨"a.pdf", "A", "blob:a"⟩], ["a.pdf", "b.pdf"], ""⟩ "merged.pdf").1
    ⟨"a.pdf", "A", "blob:a"⟩ (by decide) (by decide)

/-- Every insertion path filters the inserted name out first, so it keeps
the names duplicate-free. -/
theorem pdfNames_nodup_insert (lib : List PdfEntry) (e : PdfEntry)
    (h : (pdfNames lib).Nodup) : (pdfNames (insertPdf lib e)).Nodup := by
  unfold pdfNames insertPdf
  rw [List.map_append, List.nodup_append]
  refine ⟨?_, by simp, ?_⟩
  · exact List.Nodup.sublist (List.Sublist.map _ (List.filter_sublist lib)) h
  · intro x hx hx2
    simp only [List.map_cons, List.map_nil, List.mem_singleton] at hx2
    simp only [List.mem_map, List.mem_filter] at hx
    obtain ⟨p, ⟨_, hpn⟩, rfl⟩ := hx
    rw [hx2] at hpn
    simp at hpn

/-- Claim C9: server-side name is a key of the PDF library: each insertion
path (upload completion and upload timeout — both are `insertPdf` — and
merge) first removes any entry carrying the inserted name, and deletion only
filters, so all library updates preserve duplicate-freeness of names. -/
theorem pdfLibrary_name_key (lib : List PdfEntry) (e : PdfEntry) (nm : String)
    (enc : String → String) (st : PdfPanelState) (serverName : String) :
    ((pdfNames lib).Nodup → (pdfNames (insertPdf lib e)).Nodup)
    ∧ ((pdfNames lib).Nodup → (pdfNames (handleDeletePdf lib nm)).Nodup)
    ∧ ((pdfNames st.pdfLibrary).Nodup →
        (pdfNames (handleMergeSuccess enc st serverName).pdfLibrary).Nodup) := by
  refine ⟨pdfNames_nodup_insert lib e, ?_, ?_⟩
  · intro h
    exact List.Nodup.sublist (List.Sublist.map _ (List.filter_sublist lib)) h
  · intro h
    exact pdfNames_nodup_insert st.pdfLibrary
      ⟨serverName, serverName, pdfDownloadUrl enc serverName⟩ h

/-- Witness for C9: inserting an entry with an already-present name keeps
names duplicate-free (the old entry is replaced). -/
theorem pdfLibrary_name_key_witness :
    (pdfNames (insertPdf [⟨"a.pdf", "A", "u1"⟩] ⟨"a.pdf", "a.pdf", "u2"⟩)).Nodup :=
  (pdfLibrary_name_key [⟨"a.pdf", "A", "u1"⟩] ⟨"a.pdf", "a.pdf", "u2"⟩ "x"
    (fun s => s) ⟨[], [], ""⟩ "y").1 (by decide)

/-! ### Session management (`AppShell` in `app-shell.tsx`) -/

/-- The `AppShell` state the session handlers mutate. -/
structure AppState where
  sessions : List Session
  activeSessionId : String
deriving DecidableEq, Repr

/-- The history-loading effect (both the `.then` branch on the loaded
sessions and the `.catch` fallback, which behaves like zero loaded
sessions): nonempty history is adopted with its first session active; zero
sessions yield a freshly created session (`createSession()`, modelled by the
parameter `fresh`) which becomes active. -/
def loadHistory (loaded : List Session) (fresh : Session) : AppState :=
  match loaded with
  | [] => ⟨[fresh], fresh.id⟩
  | s :: rest => ⟨s :: rest, s.id⟩

/-- `handleNewChat`: prepend a fresh session and make it active. -/
def handleNewChat (st : AppState) (fresh : Session) : AppState :=
  ⟨fresh :: st.sessions, fresh.id⟩

/-- `handleDeleteSession` in `app-shell.tsx`:

```
setSessions((prev) => {
  const next = prev.filter((s) => s.id !== id);
  if (id === activeSessionId) {
    if (next.length > 0) setActiveSessionId(next[0].id);
    else { const fresh = createSession(); setActiveSessionId(fresh.id); return [fresh]; }
  }
  return next;
});
```

(The backend `DELETE` is fire-and-forget and does not affect this state.) -/
def handleDeleteSession (st : AppState) (sid : String) (fresh : Session) : AppState :=
  let next := st.sessions.filter (fun s => s.id != sid)
  if sid == st.activeSessionId then
    match next with
    | [] => ⟨[fresh], fresh.id⟩
    | n :: rest => ⟨n :: rest, n.id⟩
  else ⟨next, st.activeSessionId⟩

/-- The invariant of claim C10: the session list is nonempty and the active
id denotes a listed session. -/
def sessionInvariant (st : AppState) : Prop :=
  st.sessions ≠ [] ∧ st.activeSessionId ∈ st.sessions.map Session.id

/-- Claim C10: after history loading the session list is never empty and the
active id always denotes a listed session: loading zero sessions creates a
fresh active one, deleting preserves the invariant, deleting the active
session selects the next remaining one, and deleting the last remaining
session replaces it by a fresh session which becomes active. -/
theorem session_list_invariant (loaded : List Session) (st : AppState)
    (sid : String) (fresh s : Session) :
    sessionInvariant (loadHistory loaded fresh)
    ∧ (sessionInvariant st → sessionInvariant (handleDeleteSession st sid fresh))
    ∧ loadHistory [] fresh = ⟨[fresh], fresh.id⟩
    ∧ (st.sessions = [s] → st.activeSessionId = s.id →
        handleDeleteSession st s.id fresh = ⟨[fresh], fresh.id⟩)
    ∧ (∀ n rest, st.sessions.filter (fun x => x.id != st.activeSessionId) = n :: rest →
        handleDeleteSession st st.activeSessionId fresh = ⟨n :: rest, n.id⟩) := by
  refine ⟨?_, ?_, rfl, ?_, ?_⟩
  · cases loaded with
    | nil => exact ⟨by simp [loadHistory], by simp [loadHistory]⟩
    | cons a rest => exact ⟨by simp [loadHistory], by simp [loadHistory]⟩
  · rintro ⟨-, hmem⟩
    unfold handleDeleteSession
    by_cases hid : (sid == st.activeSessionId) = true
    · rw [if_pos hid]
      cases hnext : st.sessions.filter (fun x => x.id != sid) with
      | nil => exact ⟨by simp, by simp⟩
      | cons n rest => exact ⟨by simp, by simp⟩
    · rw [if_neg hid]
      obtain ⟨a, ha, haid⟩ := List.mem_map.mp hmem
      have hne : (a.id != sid) = true := by
        have : sid ≠ st.activeSessionId := by simpa using hid
        rw [haid]
        simpa using fun heq => this heq.symm
      have hain : a ∈ st.sessions.filter (fun x => x.id != sid) :=
        List.mem_filter.mpr ⟨ha, hne⟩
      exact ⟨List.ne_nil_of_mem hain, List.mem_map.mpr ⟨a, hain, haid⟩⟩
  · intro h1 h2
    unfold handleDeleteSession
    rw [h1, h2]
    simp
  · intro n rest h
    unfold handleDeleteSession
    rw [h]
    simp

/-- Witness for C10: deleting a non-active session from a concrete two-session
state keeps the invariant; deleting the only session yields the fresh one. -/
theorem session_list_invariant_witness :
    sessionInvariant (handleDeleteSession
      ⟨[⟨"s1", "New Chat", [], 0⟩, ⟨"s2", "New Chat", [], 1⟩], "s1"⟩ "s2"
      ⟨"f1", "New Chat", [], 2⟩)
    ∧ handleDeleteSession ⟨[⟨"s1", "New Chat", [], 0⟩], "s1"⟩ "s1"
        ⟨"f1", "New Chat", [], 2⟩
      = ⟨[⟨"f1", "New Chat", [], 2⟩], "f1"⟩ := by
  refine ⟨?_, ?_⟩
  · exact (session_list_invariant []
      ⟨[⟨"s1", "New Chat", [], 0⟩, ⟨"s2", "New Chat", [], 1⟩], "s1"⟩ "s2"
      ⟨"f1", "New Chat", [], 2⟩ ⟨"s1", "New Chat", [], 0⟩).2.1
      ⟨by decide, by decide⟩
  · exact (session_list_invariant [] ⟨[⟨"s1", "New Chat", [], 0⟩], "s1"⟩ "s1"
      ⟨"f1", "New Chat", [], 2⟩ ⟨"s1", "New Chat", [], 0⟩).2.2.2.1 rfl rfl

end PdfRag
